import Mathlib

/-!
Verification development for the dlldepends tool (src/src/main.rs).

The program enumerates project files from a Visual Studio solution manifest
and classifies, per project document, whether the document declares a
Reference, PackageReference or ProjectReference to a target name.

Modelling choices:
  - The structured-document scanner is the external quick_xml crate, whose
    code is not part of this repository.  Following the specification
    (section 4.1), a document is modelled by the finite sequence of parse
    events the scanner delivers: element-start and self-closing-element
    events carrying decoded attribute text, other events, and a
    malformed-event error.  End of document is the end of the list.
  - All string operations used by the source (lowercasing, trimming,
    splitting, prefix and suffix tests) are implemented here by structural
    recursion over character lists, so that every definition evaluates
    inside the kernel.  Case mapping is modelled for ASCII, which covers
    every comparison the program performs.
  - File reading is an external capability: functions receive the text or
    event list that the read would produce, and a failed read is an
    explicit Option/Except value.
-/

namespace DllDepends

/-! ## Character-list string primitives (structural recursion) -/

/-- Boolean prefix test on character lists. -/
def is_prefix_list : List Char → List Char → Bool
  | [], _ => true
  | _ :: _, [] => false
  | a :: as, b :: bs => a == b && is_prefix_list as bs

/-- Model of Rust str::starts_with for string patterns. -/
def str_starts_with (s pat : String) : Bool :=
  is_prefix_list pat.data s.data

/-- Model of Rust str::ends_with for string patterns. -/
def str_ends_with (s pat : String) : Bool :=
  is_prefix_list pat.data.reverse s.data.reverse

/-- Model of Rust str::to_lowercase, restricted to ASCII case mapping
(the program only compares ASCII words such as "include", "xmlns", ".dll"). -/
def ascii_to_lower (s : String) : String :=
  String.mk (s.data.map Char.toLower)

/-- Model of Rust str::split on a single character: the list of groups
between occurrences of the separator, keeping empty groups. -/
def split_char (c : Char) : List Char → List (List Char)
  | [] => [[]]
  | x :: rest =>
    if x == c then [] :: split_char c rest
    else
      match split_char c rest with
      | [] => [[x]]
      | g :: gs => (x :: g) :: gs

/-- Remove one trailing carriage return, as Rust str::lines does for each
line that was terminated by a newline. -/
def strip_one_cr (cs : List Char) : List Char :=
  match cs.reverse with
  | '\r' :: rest => rest.reverse
  | _ => cs

/-- Post-processing of the newline split for Rust str::lines semantics:
every group that was followed by a newline loses one trailing carriage
return, and a final empty group (a trailing newline, or empty input) is
dropped. -/
def finish_lines : List (List Char) → List (List Char)
  | [] => []
  | [last] => if last.isEmpty then [] else [last]
  | l :: rest => strip_one_cr l :: finish_lines rest

/-- Model of Rust str::lines. -/
def rust_lines (s : String) : List String :=
  (finish_lines (split_char '\n' s.data)).map String.mk

/-- Model of Rust str::trim: whitespace removed from both ends. -/
def rust_trim (s : String) : String :=
  String.mk (((s.data.dropWhile Char.isWhitespace).reverse.dropWhile
    Char.isWhitespace).reverse)

/-- Model of Rust str::trim_matches with a double-quote pattern: ALL
leading and trailing double-quote characters are removed. -/
def trim_quote_layers (s : String) : String :=
  String.mk (((s.data.dropWhile (fun c => c == '"')).reverse.dropWhile
    (fun c => c == '"')).reverse)

/-- Removal of exactly one layer of enclosing double quotes, as the
specification words describe the field cleanup (kept for comparison with
the source behaviour, which removes all layers). -/
def strip_one_quote_layer (s : String) : String :=
  match s.data with
  | '"' :: rest =>
    match rest.reverse with
    | '"' :: mid => String.mk mid.reverse
    | _ => s
  | _ => s

/-! ## Path primitives (Unix Path semantics of the Rust standard library) -/

/-- Model of Rust Path::join / PathBuf::push for the paths this program
builds: an absolute right operand replaces the base, otherwise the two are
joined with a separator. -/
def path_join (dir rel : String) : String :=
  if str_starts_with rel "/" then rel
  else if dir == "" then rel
  else if str_ends_with dir "/" then dir ++ rel
  else dir ++ "/" ++ rel

/-- Final path component (Rust Path::file_name for the names this program
normalizes, which never end in a separator). -/
def last_component (s : String) : String :=
  match (split_char '/' s.data).getLast? with
  | some cs => String.mk cs
  | none => s

/-- Index of the last dot in a character list, if any. -/
def last_dot_idx_aux : List Char → Nat → Option Nat → Option Nat
  | [], _, acc => acc
  | c :: rest, i, acc =>
    last_dot_idx_aux rest (i + 1) (if c == '.' then some i else acc)

/-- Index of the last dot in a character list, if any. -/
def last_dot_idx (cs : List Char) : Option Nat :=
  last_dot_idx_aux cs 0 none

/-- Model of Rust Path::file_stem on a single path component: ".." is its
own stem; otherwise the part before the last dot, except that a dot in
first position (a leading-dot hidden file with no other dot counts as a
pure stem) leaves the component unchanged. -/
def file_stem_component (name : String) : String :=
  if name == ".." then name
  else
    match last_dot_idx name.data with
    | some 0 => name
    | some i => String.mk (name.data.take i)
    | none => name

/-! ## Data model (src/src/main.rs lines 6 to 29) -/

/-- ReferenceType from the source: the classification result. -/
inductive ReferenceType where
  | none
  | reference
  | packageReference
  | projectReference
deriving DecidableEq, Repr

/-- The Display implementation of ReferenceType (source lines 14 to 24):
the textual tag name each kind scans for. -/
def ReferenceType.display : ReferenceType → String
  | ReferenceType.none => "None"
  | ReferenceType.reference => "Reference"
  | ReferenceType.packageReference => "PackageReference"
  | ReferenceType.projectReference => "ProjectReference"

/-! ## Scanner event model

Modelled from the spec: the Structured-Document Scanner (section 4.1) is
the external quick_xml crate, absent from src/.  A document is the finite,
forward-only sequence of events the scanner produces; attribute keys and
values are delivered as decoded text. -/

/-- An attribute as delivered by the scanner: a (key, value) text pair. -/
structure Attr where
  key : String
  value : String
deriving DecidableEq, Repr

/-- A scanner parse event.  start and empty carry the tag name and the
attribute list; other stands for every event the program ignores (end
tags, text, comments, declarations); error is a malformed-event error.
End of document is the end of the event list. -/
inductive XmlEvent where
  | start (name : String) (attrs : List Attr)
  | empty (name : String) (attrs : List Attr)
  | other
  | error
deriving DecidableEq, Repr

/-- Modelled from the spec: attribute text is delivered entity-unescaped
(section 4.1, "keys/values are returned as decoded text").  Decoder for
the standard character entities amp, lt, gt and quot. -/
def unescape_chars : List Char → List Char
  | '&' :: 'a' :: 'm' :: 'p' :: ';' :: rest => '&' :: unescape_chars rest
  | '&' :: 'l' :: 't' :: ';' :: rest => '<' :: unescape_chars rest
  | '&' :: 'g' :: 't' :: ';' :: rest => '>' :: unescape_chars rest
  | '&' :: 'q' :: 'u' :: 'o' :: 't' :: ';' :: rest => '"' :: unescape_chars rest
  | c :: rest => c :: unescape_chars rest
  | [] => []

/-- Modelled from the spec: entity decoding lifted to strings. -/
def unescape (s : String) : String :=
  String.mk (unescape_chars s.data)

/-- Modelled from the spec: the attribute the scanner delivers for a raw
attribute value as written in the document text. -/
def scan_attr (key rawValue : String) : Attr :=
  Attr.mk key (unescape rawValue)

/-! ## Reference classifier (src/src/main.rs lines 88 to 187) -/

/-- The attribute test of has_reference (source lines 162 to 169): the key
lowercased equals "include" and the value equals the target name. -/
def attr_is_include_match (dllName : String) (a : Attr) : Bool :=
  ascii_to_lower a.key == "include" && a.value == dllName

/-- The per-event match test of has_reference (source lines 157 to 176):
an element-start or self-closing element whose tag name equals the kind
textual name exactly, carrying a qualifying include attribute. -/
def element_matches (referenceType : ReferenceType) (dllName : String) :
    XmlEvent → Bool
  | XmlEvent.start name attrs =>
    name == ReferenceType.display referenceType
      && attrs.any (attr_is_include_match dllName)
  | XmlEvent.empty name attrs =>
    name == ReferenceType.display referenceType
      && attrs.any (attr_is_include_match dllName)
  | XmlEvent.other => false
  | XmlEvent.error => false

/-- has_reference (source lines 148 to 187): scan the whole event
sequence from its start; return true on the first qualifying element;
stop with false at end of document; a malformed-event error also stops
the scan, reporting no further matches. -/
def has_reference : List XmlEvent → ReferenceType → String → Bool
  | [], _, _ => false
  | XmlEvent.start name attrs :: rest, referenceType, dllName =>
    element_matches referenceType dllName (XmlEvent.start name attrs)
      || has_reference rest referenceType dllName
  | XmlEvent.empty name attrs :: rest, referenceType, dllName =>
    element_matches referenceType dllName (XmlEvent.empty name attrs)
      || has_reference rest referenceType dllName
  | XmlEvent.other :: rest, referenceType, dllName =>
    has_reference rest referenceType dllName
  | XmlEvent.error :: _, _, _ => false

/-- The attribute sweep of the namespace/sdk sniffing loop (source lines
112 to 127): the first attribute whose lowercased key is "xmlns" or "sdk"
sets the corresponding slot and stops the whole scan. -/
def sniff_attributes (ns sdk : String) : List Attr → Option (String × String)
  | [] => Option.none
  | a :: rest =>
    match ascii_to_lower a.key with
    | "xmlns" => some (a.value, sdk)
    | "sdk" => some (ns, a.value)
    | _ => sniff_attributes ns sdk rest

/-- The namespace/sdk sniffing scan of check_dependency (source lines 109
to 132): only element-start events are inspected; all other events,
malformed-event errors included, are skipped; the scan stops at the first
xmlns or sdk attribute or at end of document.  Its result is never used
afterwards. -/
def sniff_namespace : List XmlEvent → String → String → String × String
  | [], ns, sdk => (ns, sdk)
  | XmlEvent.start _ attrs :: rest, ns, sdk =>
    match sniff_attributes ns sdk attrs with
    | some result => result
    | Option.none => sniff_namespace rest ns sdk
  | _ :: rest, ns, sdk => sniff_namespace rest ns sdk

/-- The target-name preprocessing of check_dependency (source lines 95 to
102): when the lowercased name ends with ".dll", the name is replaced by
Path::new(name).file_stem(). -/
def normalize_dll_name (dllName : String) : String :=
  if str_ends_with (ascii_to_lower dllName) ".dll" then
    file_stem_component (last_component dllName)
  else dllName

/-- The priority list of check_dependency (source lines 134 to 138). -/
def reference_types : List ReferenceType :=
  [ReferenceType.reference, ReferenceType.packageReference,
    ReferenceType.projectReference]

/-- The priority loop of check_dependency (source lines 139 to 145): the
first kind whose scan matches is returned; ReferenceType.none when no
kind matches. -/
def first_matching_type (xml : List XmlEvent) (dllName : String) :
    List ReferenceType → ReferenceType
  | [] => ReferenceType.none
  | rt :: rest =>
    if has_reference xml rt dllName then rt
    else first_matching_type xml dllName rest

/-- check_dependency (source lines 88 to 146) on the scanner event
sequence of an already-read document: normalize the target name, run the
(unused) namespace/sdk sniffing scan, then try the three kinds in
priority order, each pass re-scanning the whole sequence. -/
def check_dependency (xml : List XmlEvent) (dllName : String) : ReferenceType :=
  let name := normalize_dll_name dllName
  let _ns_sdk := sniff_namespace xml "" ""
  first_matching_type xml name reference_types

/-- The classification the specification describes (section 4.2,
algorithm steps 2 and 3): the three priority passes alone, with no
sniffing scan.  Kept separate from check_dependency to compare the two. -/
def classify_passes (xml : List XmlEvent) (targetName : String) : ReferenceType :=
  let t := normalize_dll_name targetName
  if has_reference xml ReferenceType.reference t then ReferenceType.reference
  else if has_reference xml ReferenceType.packageReference t then
    ReferenceType.packageReference
  else if has_reference xml ReferenceType.projectReference t then
    ReferenceType.projectReference
  else ReferenceType.none

/-! ## Solution enumerator (src/src/main.rs lines 70 to 86) -/

/-- The per-line extraction of get_project_paths (source lines 81 to 83):
split the line on commas, index the second field (Option.none models the
index-out-of-bounds panic when the line has no comma), trim whitespace,
strip all enclosing double quotes, and join onto the solution directory. -/
def project_path_of_line (solutionDir : String) (line : String) : Option String :=
  match (split_char ',' line.data).get? 1 with
  | Option.none => Option.none
  | some fieldChars =>
    some (path_join solutionDir (trim_quote_layers (rust_trim (String.mk fieldChars))))

/-- The map-and-collect over retained lines (source lines 80 to 85), with
the panic modelled as Option.none propagation; order of lines is kept. -/
def collect_project_paths (solutionDir : String) : List String → Option (List String)
  | [] => some []
  | line :: rest =>
    match project_path_of_line solutionDir line with
    | Option.none => Option.none
    | some p =>
      match collect_project_paths solutionDir rest with
      | Option.none => Option.none
      | some ps => some (p :: ps)

/-- get_project_paths (source lines 70 to 86) on the manifest text, with
the solution directory (Path::parent of the manifest path) passed in:
lines are retained when they start with "Project(" directly, with no
trimming, then each retained line is mapped to a project path. -/
def get_project_paths (solutionDir : String) (text : String) : Option (List String) :=
  collect_project_paths solutionDir
    ((rust_lines text).filter (fun l => str_starts_with l "Project("))

/-- The enumeration the claim words describe: retention by the TRIMMED
line content starting with "Project(", and removal of only one layer of
enclosing double quotes from the second field.  Kept for comparison with
get_project_paths. -/
def claimed_enumeration (solutionDir : String) : List String → Option (List String)
  | [] => some []
  | line :: rest =>
    if str_starts_with (rust_trim line) "Project(" then
      match (split_char ',' line.data).get? 1 with
      | Option.none => Option.none
      | some fieldChars =>
        match claimed_enumeration solutionDir rest with
        | Option.none => Option.none
        | some ps =>
          some (path_join solutionDir
            (strip_one_quote_layer (rust_trim (String.mk fieldChars))) :: ps)
    else claimed_enumeration solutionDir rest

/-- The claim-side enumeration on manifest text. -/
def claimed_project_paths (solutionDir : String) (text : String) :
    Option (List String) :=
  claimed_enumeration solutionDir (rust_lines text)

/-- Amended enumeration, as a single fused recursion over the manifest
lines: retain a line exactly when it starts with "Project(" untrimmed,
take its second comma-separated field, trim whitespace, strip ALL
enclosing double-quote characters, join onto the solution directory,
keep manifest order, and fail when a retained line has no second field. -/
def amended_enumeration (solutionDir : String) : List String → Option (List String)
  | [] => some []
  | line :: rest =>
    if str_starts_with line "Project(" then
      match (split_char ',' line.data).get? 1 with
      | Option.none => Option.none
      | some fieldChars =>
        match amended_enumeration solutionDir rest with
        | Option.none => Option.none
        | some ps =>
          some (path_join solutionDir
            (trim_quote_layers (rust_trim (String.mk fieldChars))) :: ps)
    else amended_enumeration solutionDir rest

/-! ## Command-line handling (src/src/main.rs lines 31 to 47) -/

/-- The hardcoded default solution path (source line 31). -/
def DEFAULT_SLN_PATH : String :=
  "d:\\Development\\Projects\\StreamInfoHub\\StreamInfoHub.sln"

/-- The hardcoded default target name (source line 32). -/
def DEFAULT_DLL_NAME : String := "Grpc.Tools"

/-- Outcome of the argument-handling prefix of main: whether the usage
line was printed, and the (solution path, target name) pair the program
goes on to process; Option.none would mean the program stops without
processing anything. -/
structure CliOutcome where
  usagePrinted : Bool
  action : Option (String × String)
deriving DecidableEq, Repr

/-- The argument handling of main (source lines 35 to 47): argv starts
with the program name, the two default arguments are appended
unconditionally, the usage line is printed exactly when the resulting
length differs from 3, and the program then proceeds in every case with
elements 1 and 2 of the extended vector. -/
def main_cli (userArgs : List String) : CliOutcome :=
  let args := ("dlldepends" :: userArgs) ++ [DEFAULT_SLN_PATH, DEFAULT_DLL_NAME]
  { usagePrinted := args.length != 3
    action := some (args.getD 1 "", args.getD 2 "") }

/-! ## Orchestrator (src/src/main.rs lines 49 to 67 and 88 to 91) -/

/-- check_dependency including its file read (source lines 88 to 91): the
read result is an Option (Option.none models an unreadable file), and the
expect call turns a failed read into a program abort, modelled as
Except.error with the expect message. -/
def check_dependency_result (content : Option (List XmlEvent))
    (dllName : String) : Except String ReferenceType :=
  match content with
  | Option.none => Except.error "Unable to read project file"
  | some xml => Except.ok (check_dependency xml dllName)

/-- The per-project loop of main (source lines 49 to 61): each project is
classified in order; projects classified ReferenceType.none are dropped;
an aborted read aborts the whole run, losing every remaining project. -/
def run_projects : List (String × Option (List XmlEvent)) → String →
    Except String (List (String × ReferenceType))
  | [], _ => Except.ok []
  | (path, content) :: rest, dllName =>
    match check_dependency_result content dllName with
    | Except.error e => Except.error e
    | Except.ok rt =>
      match run_projects rest dllName with
      | Except.error e => Except.error e
      | Except.ok found =>
        Except.ok
          (match rt with
          | ReferenceType.none => found
          | _ => (path, rt) :: found)

/-! ## Helper lemmas -/

/-- In an event sequence with no malformed event, the scan of
has_reference is the Boolean existence of a matching element. -/
theorem has_reference_eq_any (xml : List XmlEvent) (rt : ReferenceType)
    (n : String) (h : XmlEvent.error ∉ xml) :
    has_reference xml rt n = xml.any (element_matches rt n) := by
  induction xml with
  | nil => rfl
  | cons e rest ih =>
    have hrest : XmlEvent.error ∉ rest := fun hm => h (List.mem_cons_of_mem _ hm)
    have he : e ≠ XmlEvent.error := fun hm => h (hm ▸ List.mem_cons_self _ _)
    cases e with
    | start name attrs => simp [has_reference, List.any_cons, ih hrest]
    | empty name attrs => simp [has_reference, List.any_cons, ih hrest]
    | other => simp [has_reference, List.any_cons, element_matches, ih hrest]
    | error => exact absurd rfl he

/-- List.any is invariant under permutation. -/
theorem any_of_perm {α : Type} {l l2 : List α} (f : α → Bool)
    (h : l.Perm l2) : l.any f = l2.any f := by
  induction h with
  | nil => rfl
  | cons x _ ih => simp [List.any_cons, ih]
  | swap x y l =>
    simp only [List.any_cons]
    cases f x <;> cases f y <;> simp
  | trans _ _ ih1 ih2 => exact ih1.trans ih2

/-- split_char never returns the empty list. -/
theorem split_char_ne_nil (c : Char) (cs : List Char) :
    split_char c cs ≠ [] := by
  induction cs with
  | nil => simp [split_char]
  | cons x rest ih =>
    by_cases hx : (x == c) = true
    · simp [split_char, hx]
    · simp only [split_char, hx, Bool.false_eq_true, if_false]
      cases hs : split_char c rest with
      | nil => exact absurd hs ih
      | cons g gs => simp

/-- A character list containing the separator splits into at least two
groups. -/
theorem split_char_length_of_mem (c : Char) (cs : List Char)
    (h : c ∈ cs) : 2 ≤ (split_char c cs).length := by
  induction cs with
  | nil => cases h
  | cons x rest ih =>
    by_cases hx : (x == c) = true
    · have := split_char_ne_nil c rest
      simp only [split_char, hx, if_true, List.length_cons]
      cases hs : split_char c rest with
      | nil => exact absurd hs this
      | cons g gs => simp
    · have hmem : c ∈ rest := by
        rcases List.mem_cons.mp h with h1 | h1
        · exact absurd (beq_iff_eq.mpr h1.symm) hx
        · exact h1
      have h2 := ih hmem
      simp only [split_char, hx, Bool.false_eq_true, if_false]
      cases hs : split_char c rest with
      | nil => exact absurd hs (split_char_ne_nil c rest)
      | cons g gs =>
        rw [hs] at h2
        simpa using h2

/-- collect_project_paths succeeds when every line extraction succeeds. -/
theorem collect_isSome (solutionDir : String) (ls : List String)
    (h : ∀ l ∈ ls, (project_path_of_line solutionDir l).isSome = true) :
    (collect_project_paths solutionDir ls).isSome = true := by
  induction ls with
  | nil => rfl
  | cons l rest ih =>
    have h1 := h l (List.mem_cons_self _ _)
    have h2 := ih fun x hx => h x (List.mem_cons_of_mem _ hx)
    simp only [collect_project_paths]
    cases hp : project_path_of_line solutionDir l with
    | none => rw [hp] at h1; cases h1
    | some p =>
      cases hc : collect_project_paths solutionDir rest with
      | none => rw [hc] at h2; cases h2
      | some ps => rfl

/-- Filtering then collecting is the fused amended enumeration. -/
theorem collect_filter_eq_amended (solutionDir : String) (ls : List String) :
    collect_project_paths solutionDir
      (ls.filter (fun l => str_starts_with l "Project(")) =
    amended_enumeration solutionDir ls := by
  induction ls with
  | nil => rfl
  | cons l rest ih =>
    by_cases hl : str_starts_with l "Project(" = true
    · simp only [List.filter_cons, hl, if_true, collect_project_paths,
        amended_enumeration, project_path_of_line]
      cases hg : (split_char ',' l.data).get? 1 with
      | none => rfl
      | some fieldChars => rw [ih]
    · simp only [List.filter_cons, hl, Bool.false_eq_true, if_false,
        amended_enumeration]
      rw [ih]

/-! ## Claim theorems -/

/-- Claim C1: for every document event sequence and target name,
classification tests the kinds in the fixed order Reference,
PackageReference, ProjectReference, each pass scanning the whole sequence,
and returns the first kind whose pass matches the normalized target, or
ReferenceType.none when no pass matches; for well-formed documents the
result is independent of the order in which elements appear. -/
theorem claim1_priority_classification (xml : List XmlEvent) (dllName : String) :
    (has_reference xml ReferenceType.reference (normalize_dll_name dllName) = true →
      check_dependency xml dllName = ReferenceType.reference)
    ∧ (has_reference xml ReferenceType.reference (normalize_dll_name dllName) = false →
       has_reference xml ReferenceType.packageReference (normalize_dll_name dllName) = true →
      check_dependency xml dllName = ReferenceType.packageReference)
    ∧ (has_reference xml ReferenceType.reference (normalize_dll_name dllName) = false →
       has_reference xml ReferenceType.packageReference (normalize_dll_name dllName) = false →
       has_reference xml ReferenceType.projectReference (normalize_dll_name dllName) = true →
      check_dependency xml dllName = ReferenceType.projectReference)
    ∧ (has_reference xml ReferenceType.reference (normalize_dll_name dllName) = false →
       has_reference xml ReferenceType.packageReference (normalize_dll_name dllName) = false →
       has_reference xml ReferenceType.projectReference (normalize_dll_name dllName) = false →
      check_dependency xml dllName = ReferenceType.none)
    ∧ (∀ xml2 : List XmlEvent, xml.Perm xml2 → XmlEvent.error ∉ xml →
      check_dependency xml dllName = check_dependency xml2 dllName) := by
  refine ⟨?_, ?_, ?_, ?_, ?_⟩
  · intro h1
    simp [check_dependency, first_matching_type, reference_types, h1]
  · intro h1 h2
    simp [check_dependency, first_matching_type, reference_types, h1, h2]
  · intro h1 h2 h3
    simp [check_dependency, first_matching_type, reference_types, h1, h2, h3]
  · intro h1 h2 h3
    simp [check_dependency, first_matching_type, reference_types, h1, h2, h3]
  · intro xml2 hperm herr
    have herr2 : XmlEvent.error ∉ xml2 := fun hm => herr (hperm.mem_iff.mpr hm)
    have e1 : ∀ rt n, has_reference xml rt n = xml.any (element_matches rt n) :=
      fun rt n => has_reference_eq_any xml rt n herr
    have e2 : ∀ rt n, has_reference xml2 rt n = xml2.any (element_matches rt n) :=
      fun rt n => has_reference_eq_any xml2 rt n herr2
    have e3 : ∀ f : XmlEvent → Bool, xml.any f = xml2.any f :=
      fun f => any_of_perm f hperm
    simp [check_dependency, first_matching_type, reference_types, e1, e2, e3]

/-- Witness for claim C1 at a concrete document holding all three kinds:
the highest-priority kind wins, and a swap of the lower-priority elements
does not change the result. -/
theorem claim1_priority_classification_witness :
    check_dependency
      [XmlEvent.empty "ProjectReference" [Attr.mk "Include" "Alpha"],
       XmlEvent.empty "PackageReference" [Attr.mk "Include" "Alpha"],
       XmlEvent.empty "Reference" [Attr.mk "Include" "Alpha"]] "Alpha"
      = ReferenceType.reference
    ∧ check_dependency
      [XmlEvent.empty "ProjectReference" [Attr.mk "Include" "Alpha"],
       XmlEvent.empty "PackageReference" [Attr.mk "Include" "Alpha"],
       XmlEvent.empty "Reference" [Attr.mk "Include" "Alpha"]] "Alpha"
      = check_dependency
      [XmlEvent.empty "PackageReference" [Attr.mk "Include" "Alpha"],
       XmlEvent.empty "ProjectReference" [Attr.mk "Include" "Alpha"],
       XmlEvent.empty "Reference" [Attr.mk "Include" "Alpha"]] "Alpha" := by
  have h := claim1_priority_classification
    [XmlEvent.empty "ProjectReference" [Attr.mk "Include" "Alpha"],
     XmlEvent.empty "PackageReference" [Attr.mk "Include" "Alpha"],
     XmlEvent.empty "Reference" [Attr.mk "Include" "Alpha"]] "Alpha"
  exact ⟨h.1 (by decide),
    h.2.2.2.2 _ (List.Perm.swap _ _ _) (by decide)⟩

/-- Claim C2: an event counts as a match exactly when it is an
element-start or self-closing element whose tag name equals the kind
textual name case-sensitively, carrying an attribute whose key equals
"include" case-insensitively and whose value equals the normalized target
case-sensitively. -/
theorem claim2_element_match_condition (e : XmlEvent) (rt : ReferenceType)
    (n : String) :
    element_matches rt n e = true ↔
      ∃ name attrs,
        (e = XmlEvent.start name attrs ∨ e = XmlEvent.empty name attrs)
        ∧ name = ReferenceType.display rt
        ∧ ∃ a, a ∈ attrs ∧ ascii_to_lower a.key = ascii_to_lower "include"
            ∧ a.value = n := by
  have hinc : ascii_to_lower "include" = "include" := rfl
  cases e with
  | start name attrs =>
    simp only [element_matches, Bool.and_eq_true, beq_iff_eq, List.any_eq_true,
      attr_is_include_match, hinc]
    constructor
    · rintro ⟨h1, a, ha, h2, h3⟩
      exact ⟨name, attrs, Or.inl rfl, h1, a, ha, h2, h3⟩
    · rintro ⟨name2, attrs2, heq | heq, h1, a, ha, h2, h3⟩
      · cases heq
        exact ⟨h1, a, ha, h2, h3⟩
      · cases heq
  | empty name attrs =>
    simp only [element_matches, Bool.and_eq_true, beq_iff_eq, List.any_eq_true,
      attr_is_include_match, hinc]
    constructor
    · rintro ⟨h1, a, ha, h2, h3⟩
      exact ⟨name, attrs, Or.inr rfl, h1, a, ha, h2, h3⟩
    · rintro ⟨name2, attrs2, heq | heq, h1, a, ha, h2, h3⟩
      · cases heq
      · cases heq
        exact ⟨h1, a, ha, h2, h3⟩
  | other =>
    simp only [element_matches, Bool.false_eq_true, false_iff]
    rintro ⟨name2, attrs2, heq | heq, -⟩ <;> cases heq
  | error =>
    simp only [element_matches, Bool.false_eq_true, false_iff]
    rintro ⟨name2, attrs2, heq | heq, -⟩ <;> cases heq

/-- Witness for claim C2: a self-closing PackageReference element with an
upper-case INCLUDE key matches. -/
theorem claim2_element_match_condition_witness :
    element_matches ReferenceType.packageReference "Newtonsoft.Json"
      (XmlEvent.empty "PackageReference"
        [Attr.mk "Version" "13.0.1", Attr.mk "INCLUDE" "Newtonsoft.Json"])
      = true :=
  (claim2_element_match_condition _ _ _).mpr
    ⟨"PackageReference",
     [Attr.mk "Version" "13.0.1", Attr.mk "INCLUDE" "Newtonsoft.Json"],
     Or.inr rfl, rfl,
     Attr.mk "INCLUDE" "Newtonsoft.Json",
     by simp, by decide, rfl⟩

/-- Claim C7: scanning always terminates (every scan here is a total
structural recursion over the finite event sequence), and a malformed
event ends the classification scan as an implicit end of document: no
event after the first error ever influences the result, and no error is
propagated to the caller.  The sniffing scan likewise ends quietly when
the sequence ends at a malformed event. -/
theorem claim7_error_truncates_scan (pre post : List XmlEvent)
    (rt : ReferenceType) (n ns sdk : String) :
    has_reference (pre ++ XmlEvent.error :: post) rt n = has_reference pre rt n
    ∧ sniff_namespace (pre ++ [XmlEvent.error]) ns sdk
        = sniff_namespace pre ns sdk := by
  constructor
  · induction pre with
    | nil => rfl
    | cons e rest ih =>
      cases e with
      | start name attrs => simp [has_reference, ih]
      | empty name attrs => simp [has_reference, ih]
      | other => simpa [has_reference] using ih
      | error => rfl
  · induction pre generalizing ns sdk with
    | nil => rfl
    | cons e rest ih =>
      cases e with
      | start name attrs =>
        simp only [List.cons_append, sniff_namespace]
        cases sniff_attributes ns sdk attrs with
        | none => exact ih ns sdk
        | some r => rfl
      | empty name attrs => exact ih ns sdk
      | other => exact ih ns sdk
      | error => exact ih ns sdk

/-- Claim C9: the namespace/sdk sniffing scan has no effect on the
classification result: check_dependency equals the three priority passes
alone, on every document event sequence and target name. -/
theorem claim9_sniff_no_effect (xml : List XmlEvent) (targetName : String) :
    check_dependency xml targetName = classify_passes xml targetName := by
  simp [check_dependency, classify_passes, first_matching_type, reference_types]

/-- Claim C3 counterexample: with the document holding a self-closing
Reference element whose include value is "foo.dll", classifying with the
target "foo.dll.dll" (normalized once, to "foo.dll") yields Reference,
while classifying with its base name "foo.dll" (normalized again, to
"foo") yields ReferenceType.none — so classifying with a name that ends
in ".dll" does NOT always equal classifying with its base name. -/
theorem claim3_suffix_counterexample :
    check_dependency [XmlEvent.empty "Reference" [Attr.mk "Include" "foo.dll"]]
      "foo.dll.dll" = ReferenceType.reference
    ∧ check_dependency [XmlEvent.empty "Reference" [Attr.mk "Include" "foo.dll"]]
      "foo.dll" = ReferenceType.none := by
  exact ⟨rfl, rfl⟩

/-- Claim C3 amended: classifying with a target name that case-insensitively
ends in ".dll" equals classifying with its base name (the file stem of its
final path component) whenever that base name does not itself
case-insensitively end in ".dll"; the normalization is applied once, not
to a fixed point. -/
theorem claim3_suffix_normalization_amended (xml : List XmlEvent)
    (name : String)
    (h1 : str_ends_with (ascii_to_lower name) ".dll" = true)
    (h2 : str_ends_with
      (ascii_to_lower (file_stem_component (last_component name))) ".dll" = false) :
    check_dependency xml name
      = check_dependency xml (file_stem_component (last_component name)) := by
  simp [check_dependency, normalize_dll_name, h1, h2]

/-- Witness for the amended claim C3, at the document of spec scenario D
and the target "System.Data.dll", whose base name is "System.Data". -/
theorem claim3_suffix_normalization_amended_witness :
    check_dependency [XmlEvent.empty "Reference" [Attr.mk "Include" "System.Data"]]
      "System.Data.dll"
    = check_dependency [XmlEvent.empty "Reference" [Attr.mk "Include" "System.Data"]]
      (file_stem_component (last_component "System.Data.dll")) :=
  claim3_suffix_normalization_amended
    [XmlEvent.empty "Reference" [Attr.mk "Include" "System.Data"]]
    "System.Data.dll" (by decide) (by decide)

/-- Claim C4 counterexample: on a manifest whose second line starts with
"Project(" only after trimming a leading space, and whose third line has a
doubly quoted second field, the source enumeration differs from the
enumeration the claim words describe (trimmed retention, one quote
layer): the source skips the indented line and strips every quote
layer. -/
theorem claim4_enumeration_counterexample :
    get_project_paths "/sol"
      "Header\n Project(A) = \"App\", \"\"App.csproj\"\", A\nProject(B) = \"Lib\", \"Lib.csproj\", B\n"
    ≠ claimed_project_paths "/sol"
      "Header\n Project(A) = \"App\", \"\"App.csproj\"\", A\nProject(B) = \"Lib\", \"Lib.csproj\", B\n" := by
  decide

/-- Claim C4 amended: the enumeration retains exactly the lines that start
with "Project(" directly (no trimming, so an indented project line is
skipped), takes the second comma-separated field of each retained line,
trims surrounding whitespace and then strips ALL enclosing double-quote
characters, joins the result onto the manifest parent directory, returns
the paths in manifest order, and fails (index panic) when a retained line
has no second field. -/
theorem claim4_enumeration_amended (solutionDir text : String) :
    get_project_paths solutionDir text
      = amended_enumeration solutionDir (rust_lines text) :=
  collect_filter_eq_amended solutionDir (rust_lines text)

/-- Claim C5 counterexample: invoked with zero user arguments (a missing
argument), the program prints no usage line and still proceeds, with the
two injected default arguments — the claim that it prints usage and takes
no further action fails. -/
theorem claim5_usage_counterexample :
    (main_cli []).usagePrinted = false
    ∧ (main_cli []).action = some (DEFAULT_SLN_PATH, DEFAULT_DLL_NAME) := by
  exact ⟨rfl, rfl⟩

/-- Claim C5 amended: because two default arguments are appended
unconditionally, the usage line is printed exactly when the user passed at
least one argument (even a correct two-argument call prints it), and the
program proceeds in every case: with the defaults when no argument was
given, with the lone argument and the default solution path when one was
given, and with the first two arguments otherwise. -/
theorem claim5_usage_amended (userArgs : List String) :
    ((main_cli userArgs).usagePrinted = true ↔ userArgs ≠ [])
    ∧ (userArgs = [] →
        (main_cli userArgs).action = some (DEFAULT_SLN_PATH, DEFAULT_DLL_NAME))
    ∧ (∀ a rest, userArgs = a :: rest → rest = [] →
        (main_cli userArgs).action = some (a, DEFAULT_SLN_PATH))
    ∧ (∀ a b rest, userArgs = a :: b :: rest →
        (main_cli userArgs).action = some (a, b)) := by
  refine ⟨?_, ?_, ?_, ?_⟩
  · cases userArgs with
    | nil => simp [main_cli]
    | cons a rest =>
      simp only [main_cli, List.cons_append, List.length_cons, ne_eq,
        reduceCtorEq, not_false_eq_true, iff_true, List.length_append]
      rw [bne_iff_ne]
      simp
  · intro h
    subst h
    rfl
  · intro a rest h hrest
    subst h
    subst hrest
    rfl
  · intro a b rest h
    subst h
    rfl

/-- Witness for the amended claim C5: with exactly one user argument the
usage line is printed and the program proceeds with that argument and the
default solution path. -/
theorem claim5_usage_amended_witness :
    (main_cli ["MySolution.sln"]).usagePrinted = true
    ∧ (main_cli ["MySolution.sln"]).action
        = some ("MySolution.sln", DEFAULT_SLN_PATH) := by
  have h := claim5_usage_amended ["MySolution.sln"]
  exact ⟨h.1.mpr (by decide), h.2.2.1 "MySolution.sln" [] rfl rfl⟩

/-- Claim C6 (code bug): a batch whose first project file is unreadable
aborts the whole run with the expect message, and the second project —
which does hold a matching Reference and would be reported — is never
processed; the claim (and the specification) require the unreadable
project to be skipped with a diagnostic while the batch continues. -/
theorem claim6_unreadable_aborts_run :
    run_projects
      [("Bad.csproj", Option.none),
       ("Good.csproj",
        some [XmlEvent.empty "Reference" [Attr.mk "Include" "Grpc.Tools"]])]
      "Grpc.Tools"
      = Except.error "Unable to read project file"
    ∧ check_dependency
        [XmlEvent.empty "Reference" [Attr.mk "Include" "Grpc.Tools"]]
        "Grpc.Tools" = ReferenceType.reference := by
  exact ⟨rfl, rfl⟩

/-- Claim C8: attribute values are delivered to the classifier as decoded
text, so a target name containing a character written as an entity
reference in the document still matches: whenever the raw attribute value
decodes to the target name and the key is a case-insensitive "include",
the classification scan reports a match. -/
theorem claim8_entity_decoding (rt : ReferenceType) (key raw target : String)
    (hk : ascii_to_lower key = "include")
    (hv : unescape raw = target) :
    has_reference
      [XmlEvent.empty (ReferenceType.display rt) [scan_attr key raw]]
      rt target = true := by
  simp [has_reference, element_matches, scan_attr, attr_is_include_match, hk, hv]

/-- Witness for claim C8: the include value written "A&amp;B" in the
document matches the target name "A&B". -/
theorem claim8_entity_decoding_witness :
    has_reference
      [XmlEvent.empty (ReferenceType.display ReferenceType.reference)
        [scan_attr "Include" "A&amp;B"]]
      ReferenceType.reference "A&B" = true :=
  claim8_entity_decoding ReferenceType.reference "Include" "A&amp;B" "A&B"
    (by decide) (by decide)

/-- Claim C10: indexing the second comma-separated field is in bounds for
every manifest whose retained lines each contain a comma — under that
precondition the enumeration succeeds — while a manifest holding a line
that starts with "Project(" but has no comma makes the access out of
bounds (the enumeration is not total over arbitrary manifest text). -/
theorem claim10_second_field_bounds :
    (∀ solutionDir text : String,
      (∀ l ∈ rust_lines text,
        str_starts_with l "Project(" = true → l.data.contains ',' = true) →
      (get_project_paths solutionDir text).isSome = true)
    ∧ get_project_paths "/d" "Project(NoComma" = Option.none := by
  constructor
  · intro solutionDir text h
    apply collect_isSome
    intro l hl
    have hmem := List.mem_filter.mp hl
    have hcomma : (',' ∈ l.data) := by
      have := h l hmem.1 (by simpa using hmem.2)
      simpa [List.contains] using this
    have hlen := split_char_length_of_mem ',' l.data hcomma
    simp only [project_path_of_line]
    cases hg : (split_char ',' l.data).get? 1 with
    | none =>
      have := List.get?_eq_none.mp hg
      omega
    | some fieldChars => rfl
  · rfl

/-- Witness for claim C10: a well-formed one-project manifest, whose
single retained line contains commas, enumerates successfully. -/
theorem claim10_second_field_bounds_witness :
    (get_project_paths "/d"
      "Project(A) = \"App\", \"App\\App.csproj\", A").isSome = true :=
  claim10_second_field_bounds.1 "/d"
    "Project(A) = \"App\", \"App\\App.csproj\", A" (by decide)

end DllDepends
